import Mathlib

/-!
# Quantum chess: verification of the probability, quantum-state and rules code

Shallow embedding of the quantum-chess engine:

* `QProb` embeds `src/quantum/probability.rs` (probability zones and the
  stake/position probability formula).  `f64` values are modelled as exact
  rationals; the module does no floating-point-specific operation (only
  addition, multiplication, `min`/`max` of decimal constants).
* `QS` embeds `src/quantum/mod.rs` (amplitude-vector quantum states,
  entanglement bookkeeping, measurement).  `Complex64` is modelled as `ℂ`
  and `f64` as `ℝ`; the random sampler of `measure` is passed in explicitly
  as a function from the probability vector to the chosen index, and the
  binary draw of the GHZ branch as a stream of booleans.
* `QC` embeds `src/game/rules.rs` (the rules engine: move validation,
  execution, check detection and terminal-state detection).

`HashMap`/`HashSet`/`Vec` are modelled as association lists or plain lists
with the corresponding first-match lookup semantics.
-/

namespace QProb

/-- `ProbabilityZone` of src/quantum/probability.rs. -/
inductive ProbabilityZone where
  | VeryLow
  | Low
  | Medium
  | High
  | VeryHigh
deriving DecidableEq, Repr

/-- `MAX_STAKE_BONUS` (0.3). -/
def MAX_STAKE_BONUS : ℚ := 3 / 10

/-- `MIN_PROBABILITY` (0.05). -/
def MIN_PROBABILITY : ℚ := 1 / 20

/-- `MAX_PROBABILITY` (0.95). -/
def MAX_PROBABILITY : ℚ := 19 / 20

/-- `calculate_stake_modifier`: `min(stake, 100) / 100 * MAX_STAKE_BONUS`. -/
def calculate_stake_modifier (stake_amount : ℕ) : ℚ :=
  let stake_normalized : ℚ := (min stake_amount 100 : ℕ) / 100
  stake_normalized * MAX_STAKE_BONUS

/-- `calculate_position_modifier`: 0.05 when the first two characters of the
square are d/e and 4/5, 0 otherwise (and 0 for strings shorter than 2). -/
def calculate_position_modifier (position : List Char) : ℚ :=
  if position.length < 2 then 0
  else
    let file := position.getD 0 ' '
    let rank := position.getD 1 ' '
    if (file = 'd' ∨ file = 'e') ∧ (rank = '4' ∨ rank = '5') then 1 / 20 else 0

/-- `calculate_probability`: zone base plus stake and position modifiers,
then `.min(MAX_PROBABILITY).max(MIN_PROBABILITY)`. -/
def calculate_probability (stake_amount : ℕ) (position : List Char)
    (zone : ProbabilityZone) : ℚ :=
  let base : ℚ :=
    match zone with
    | .VeryLow => 1 / 10
    | .Low => 3 / 10
    | .Medium => 1 / 2
    | .High => 7 / 10
    | .VeryHigh => 9 / 10
  let stake_modifier := calculate_stake_modifier stake_amount
  let position_modifier := calculate_position_modifier position
  max (min (base + stake_modifier + position_modifier) MAX_PROBABILITY) MIN_PROBABILITY

/-- The base zone per piece type, the `base_zone` match of
`determine_probability_zone`. -/
def base_zone_of (piece_type : String) : ProbabilityZone :=
  match piece_type with
  | "pawn" => .High
  | "knight" => .Medium
  | "bishop" => .Medium
  | "rook" => .Medium
  | "queen" => .Low
  | "king" => .VeryLow
  | _ => .Medium

/-- `determine_probability_zone`: captures shift the base zone down one step;
otherwise a stake above 50 shifts it up one step. -/
def determine_probability_zone (piece_type : String) (is_capture : Bool)
    (stake_amount : ℕ) : ProbabilityZone :=
  let base_zone := base_zone_of piece_type
  if is_capture then
    match base_zone with
    | .VeryHigh => .High
    | .High => .Medium
    | .Medium => .Low
    | .Low => .VeryLow
    | .VeryLow => .VeryLow
  else
    if stake_amount > 50 then
      match base_zone with
      | .VeryLow => .Low
      | .Low => .Medium
      | .Medium => .High
      | .High => .VeryHigh
      | .VeryHigh => .VeryHigh
    else
      base_zone

/-- `calculate_move_probability`: zone and base probability, then a 0.8
factor when the piece is entangled. -/
def calculate_move_probability (piece_type : String)
    (from_position to_position : List Char) (is_capture : Bool)
    (stake_amount : ℕ) (is_entangled : Bool) : ℚ :=
  let zone := determine_probability_zone piece_type is_capture stake_amount
  let probability := calculate_probability stake_amount to_position zone
  if is_entangled then probability * (8 / 10) else probability

/-- The spec's one-step shift toward VeryLow (floored at VeryLow), stated
independently of the code for the refinement claims. -/
def spec_shift_toward_very_low : ProbabilityZone → ProbabilityZone
  | .VeryHigh => .High
  | .High => .Medium
  | .Medium => .Low
  | .Low => .VeryLow
  | .VeryLow => .VeryLow

/-- The spec's one-step shift toward VeryHigh (capped at VeryHigh), stated
independently of the code for the refinement claims. -/
def spec_shift_toward_very_high : ProbabilityZone → ProbabilityZone
  | .VeryLow => .Low
  | .Low => .Medium
  | .Medium => .High
  | .High => .VeryHigh
  | .VeryHigh => .VeryHigh

/-- The spec's zone base value. -/
def spec_zone_base : ProbabilityZone → ℚ
  | .VeryLow => 1 / 10
  | .Low => 3 / 10
  | .Medium => 1 / 2
  | .High => 7 / 10
  | .VeryHigh => 9 / 10

/-- The spec's stake modifier `min(stake,100)/100 * 0.3`. -/
def spec_stake_modifier (stake : ℕ) : ℚ :=
  ((min stake 100 : ℕ) : ℚ) / 100 * (3 / 10)

/-- The spec's position modifier: 0.05 exactly when the landing square is one
of the four center squares d4, d5, e4, e5 (as a whole string). -/
def spec_position_modifier (position : List Char) : ℚ :=
  if position = ['d', '4'] ∨ position = ['d', '5'] ∨
     position = ['e', '4'] ∨ position = ['e', '5'] then 1 / 20 else 0

/-- The spec's final probability: zone base + stake modifier + position
modifier, clamped to [0.05, 0.95]. -/
def spec_probability (stake : ℕ) (position : List Char)
    (zone : ProbabilityZone) : ℚ :=
  max MIN_PROBABILITY
    (min MAX_PROBABILITY
      (spec_zone_base zone + spec_stake_modifier stake + spec_position_modifier position))

end QProb

section AssocHelpers

variable {α : Type} {β : Type} [DecidableEq α]

/-- First-match lookup in an association list (the `HashMap::get` model). -/
def lookupA (k : α) (l : List (α × β)) : Option β :=
  (l.find? (fun e => decide (e.1 = k))).map Prod.snd

/-- Remove every pair with the given key (the `HashMap::remove` model). -/
def removeA (k : α) (l : List (α × β)) : List (α × β) :=
  l.filter (fun e => decide (e.1 ≠ k))

/-- Overwrite the value at a key, appending when the key is absent (the
`HashMap::insert` model). -/
def setA (k : α) (v : β) (l : List (α × β)) : List (α × β) :=
  if (lookupA k l).isSome then
    l.map (fun e => if e.1 = k then (k, v) else e)
  else
    l ++ [(k, v)]

/-- Apply a function to the value at a key when present (the
`HashMap::get_mut` model). -/
def updateA (k : α) (f : β → β) (l : List (α × β)) : List (α × β) :=
  l.map (fun e => if e.1 = k then (e.1, f e.2) else e)

end AssocHelpers

namespace QS

noncomputable section

/-- `ChessPosition` of src/quantum/mod.rs.  The source's first field is
called `notation`, which is a Lean keyword, hence `nota` here. -/
structure ChessPosition where
  nota : String
  row : ℕ
  col : ℕ
deriving DecidableEq, Inhabited

/-- `EntanglementType` of src/quantum/mod.rs. -/
inductive EntanglementType where
  | Bell
  | WState
  | GHZ
  | Custom (correlation : ℝ)

/-- `QuantumState` of src/quantum/mod.rs: amplitude vector, basis positions
and the entanglement map keyed by the other piece's id (`Uuid` modelled as
`ℕ`). -/
structure QuantumState where
  amplitudes : List ℂ
  basis_states : List ChessPosition
  entanglements : List (ℕ × EntanglementType)

/-- Sum of `|amplitude_i|²` over the amplitude vector. -/
def normSqSum (s : QuantumState) : ℝ :=
  (s.amplitudes.map Complex.normSq).sum

/-- `QuantumState::new`: a single definite position with amplitude 1. -/
def QuantumState.new (position : ChessPosition) : QuantumState :=
  { amplitudes := [1], basis_states := [position], entanglements := [] }

/-- `QuantumState::superposition`: checked construction from positions and
probabilities, each amplitude `sqrt(probability)` with zero imaginary part. -/
def superposition (positions : List ChessPosition)
    (probabilities : List ℝ) : Except String QuantumState :=
  if positions = [] then
    .error "Cannot create superposition with empty positions"
  else if positions.length ≠ probabilities.length then
    .error "Positions and probabilities must have the same length"
  else if |probabilities.sum - 1| > 1 / 1000000 then
    .error "Probabilities must sum to 1.0"
  else
    .ok { amplitudes := probabilities.map (fun prob => ⟨Real.sqrt prob, 0⟩),
          basis_states := positions,
          entanglements := [] }

/-- `QuantumState::entangle`: record the link with the other piece. -/
def QuantumState.entangle (s : QuantumState) (piece_id : ℕ)
    (entanglement_type : EntanglementType) : QuantumState :=
  { s with entanglements := setA piece_id entanglement_type s.entanglements }

/-- `QuantumState::disentangle`: remove the link with the other piece. -/
def QuantumState.disentangle (s : QuantumState) (piece_id : ℕ) : QuantumState :=
  { s with entanglements := removeA piece_id s.entanglements }

/-- `QuantumState::normalize`: divide all amplitudes by the norm when it is
positive, otherwise leave the state unchanged. -/
def normalize (s : QuantumState) : QuantumState :=
  let norm := Real.sqrt (normSqSum s)
  if 0 < norm then
    { s with amplitudes := s.amplitudes.map (fun amp => amp / (norm : ℂ)) }
  else
    s

/-- The state `add_position` builds before its final `normalize`: merge the
amplitude into an existing basis state, or append a new basis state. -/
def add_position_raw (s : QuantumState) (position : ChessPosition)
    (amplitude : ℂ) : QuantumState :=
  match s.basis_states.findIdx? (fun pos => decide (pos = position)) with
  | some idx =>
      { s with amplitudes := s.amplitudes.set idx (s.amplitudes.getD idx 0 + amplitude) }
  | none =>
      { s with basis_states := s.basis_states ++ [position],
               amplitudes := s.amplitudes ++ [amplitude] }

/-- `QuantumState::add_position` (always returns `Ok(())` in the source, so
the state alone is returned here). -/
def add_position (s : QuantumState) (position : ChessPosition)
    (amplitude : ℂ) : QuantumState :=
  normalize (add_position_raw s position amplitude)

/-- The amplitude mix `apply_interference` builds before its final
`normalize`, given the two found indices. -/
def interference_raw (s : QuantumState) (i j : ℕ) (phase : ℝ) : QuantumState :=
  let amp1 := s.amplitudes.getD i 0
  let amp2 := s.amplitudes.getD j 0
  let phase_factor : ℂ := ⟨Real.cos phase, Real.sin phase⟩
  let mixed := (s.amplitudes.set i (amp1 + phase_factor * amp2)).set j
    (amp2 + (starRingEnd ℂ) phase_factor * amp1)
  { s with amplitudes := mixed }

/-- `apply_interference`: rotate and mix the amplitudes of two basis
positions, failing when either position is absent. -/
def apply_interference (s : QuantumState)
    (position1 position2 : ChessPosition) (phase : ℝ) :
    Except String QuantumState :=
  match s.basis_states.findIdx? (fun pos => decide (pos = position1)),
        s.basis_states.findIdx? (fun pos => decide (pos = position2)) with
  | some i, some j => .ok (normalize (interference_raw s i j phase))
  | _, _ => .error "One or both positions not found in quantum state"

/-- `QuantumState::measure`, with the weighted random draw abstracted as
`sample`, a function from the probability vector to the chosen index.
Returns the collapsed state and the measured position. -/
def measure (sample : List ℝ → ℕ) (s : QuantumState) :
    QuantumState × ChessPosition :=
  let probs := s.amplitudes.map Complex.normSq
  let idx := sample probs
  let measured_position := s.basis_states.getD idx default
  ({ amplitudes := [1], basis_states := [measured_position],
     entanglements := s.entanglements }, measured_position)

/-- `modify_probabilities`: adjust the sampling distribution for one
entanglement.  `ghz_draw` stands for the GHZ branch's uniform binary draw
(`true` means the draw hit 0, boosting the first basis state). -/
def modify_probabilities (probs : List ℝ)
    (entangled_state : QuantumState) (entanglement_type : EntanglementType)
    (ghz_draw : Bool) : List ℝ :=
  match entanglement_type with
  | .Bell =>
      let entangled_probs := entangled_state.amplitudes.map Complex.normSq
      probs.mapIdx (fun i p =>
        if i < entangled_probs.length then (p + entangled_probs.getD i 0) / 2 else p)
  | .WState =>
      probs.mapIdx (fun i p =>
        if i < entangled_state.basis_states.length then p * (6 / 5) else p)
  | .GHZ =>
      if ghz_draw then
        probs.mapIdx (fun i p => if i = 0 then p * 2 else p)
      else
        probs.mapIdx (fun i p => if 1 ≤ i then p * (3 / 2) else p)
  | .Custom correlation =>
      let entangled_probs := entangled_state.amplitudes.map Complex.normSq
      probs.mapIdx (fun i p =>
        if i < entangled_probs.length then
          p * (1 - correlation) + entangled_probs.getD i 0 * correlation
        else p)

/-- `QuantumState::measure_with_entanglement`: adjust the distribution per
entanglement, renormalize, then sample and collapse.  `ghz` is the stream of
GHZ binary draws, consumed one per entanglement entry. -/
def measure_with_entanglement (sample : List ℝ → ℕ)
    (ghz : ℕ → Bool) (s : QuantumState)
    (entangled_states : List (ℕ × QuantumState)) :
    QuantumState × ChessPosition :=
  if s.entanglements.isEmpty then measure sample s
  else
    let step : List ℝ × ℕ → ℕ × EntanglementType → List ℝ × ℕ :=
      fun acc e =>
        match lookupA e.1 entangled_states with
        | some entangled_state =>
            (modify_probabilities acc.1 entangled_state e.2 (ghz acc.2), acc.2 + 1)
        | none => (acc.1, acc.2 + 1)
    let modified_probs :=
      (s.entanglements.foldl step (s.amplitudes.map Complex.normSq, 0)).1
    let sum := modified_probs.sum
    let final_probs :=
      if 0 < sum then modified_probs.map (fun p => p / sum) else modified_probs
    let idx := sample final_probs
    let measured_position := s.basis_states.getD idx default
    ({ amplitudes := [1], basis_states := [measured_position],
       entanglements := s.entanglements }, measured_position)

/-- `update_entangled_state`: correlated adjustment of an entangled partner
after the other piece was measured. -/
def update_entangled_state (state : QuantumState)
    (entanglement_type : EntanglementType)
    (_measured_position : ChessPosition) : QuantumState :=
  match entanglement_type with
  | .Bell =>
      if 1 < state.basis_states.length then
        { amplitudes := [1],
          basis_states := [state.basis_states.getD 0 default],
          entanglements := state.entanglements }
      else state
  | .WState => normalize state
  | .GHZ => normalize state
  | .Custom _ => normalize state

/-- `create_entanglement`: record the link in both pieces' entanglement
maps, failing when either piece is missing. -/
def create_entanglement (piece1_id piece2_id : ℕ)
    (entanglement_type : EntanglementType)
    (states : List (ℕ × QuantumState)) :
    Except String (List (ℕ × QuantumState)) :=
  if (lookupA piece1_id states).isNone ∨ (lookupA piece2_id states).isNone then
    .error "One or both pieces not found"
  else
    .ok (updateA piece2_id (fun s2 => s2.entangle piece1_id entanglement_type)
          (updateA piece1_id (fun s1 => s1.entangle piece2_id entanglement_type)
            states))

/-- `collapse_state`: measure a piece, updating and disentangling every
entangled partner, and drop all of the measured piece's entanglements. -/
def collapse_state (sample : List ℝ → ℕ) (ghz : ℕ → Bool)
    (piece_id : ℕ) (states : List (ℕ × QuantumState)) :
    Except String (List (ℕ × QuantumState) × ChessPosition) :=
  match lookupA piece_id states with
  | none => .error "Piece not found"
  | some state =>
    let entangled_pieces := state.entanglements.map Prod.fst
    if entangled_pieces.isEmpty then
      let r := measure sample state
      .ok (updateA piece_id (fun _ => r.1) states, r.2)
    else
      let r := measure_with_entanglement sample ghz state states
      let states1 := updateA piece_id (fun _ => r.1) states
      let states2 := entangled_pieces.foldl
        (fun acc other_piece_id =>
          updateA other_piece_id
            (fun other_state =>
              let updated :=
                match lookupA other_piece_id r.1.entanglements with
                | some entanglement_type =>
                    update_entangled_state other_state entanglement_type r.2
                | none => other_state
              updated.disentangle piece_id)
            acc)
        states1
      let states3 := updateA piece_id
        (fun s => entangled_pieces.foldl (fun a q => a.disentangle q) s) states2
      .ok (states3, r.2)

end

end QS

namespace QC

/-- `Position` as used by src/game/rules.rs: `x`/`y` coordinates (`u8` in the
source; the rules engine only builds coordinates in `0..8`). -/
structure Position where
  x : ℕ
  y : ℕ
deriving DecidableEq, Inhabited

/-- `PieceType` as used by src/game/rules.rs. -/
inductive PieceType where
  | Pawn
  | Knight
  | Bishop
  | Rook
  | Queen
  | King
deriving DecidableEq

/-- `Piece` as used by src/game/rules.rs: a type and a colour compared
against the boolean `is_white` (so the colour itself is a `Bool`). -/
structure Piece where
  piece_type : PieceType
  color : Bool
deriving DecidableEq

/-- The `QuantumState` marker enum src/game/rules.rs stores on board squares
via `set_quantum_state` (its defining module is absent from the repository;
the two variants used are `Superposition` and `Entangled`). -/
inductive SquareQuantumState where
  | Superposition
  | Entangled
deriving DecidableEq

/-- Modelled from the spec: the `Board` type src/game/rules.rs imports is not
among the repository's files (the `board.rs` present defines a different,
stubbed board).  Per §3 "the Board owns piece placement"; the operations the
rules engine uses (`get_piece`, `set_piece`, `remove_piece`,
`set_quantum_state`, `clear_quantum_state`, `clone`) are modelled as
finite-map operations keyed by `Position`. -/
structure Board where
  pieces : List (Position × Piece)
  quantum : List (Position × SquareQuantumState)
deriving DecidableEq

/-- `Board::get_piece`. -/
def Board.get_piece (b : Board) (pos : Position) : Option Piece :=
  lookupA pos b.pieces

/-- `Board::set_piece`. -/
def Board.set_piece (b : Board) (pos : Position) (piece : Piece) : Board :=
  { b with pieces := setA pos piece b.pieces }

/-- `Board::remove_piece`. -/
def Board.remove_piece (b : Board) (pos : Position) : Board :=
  { b with pieces := removeA pos b.pieces }

/-- `Board::set_quantum_state`. -/
def Board.set_quantum_state (b : Board) (pos : Position)
    (q : SquareQuantumState) : Board :=
  { b with quantum := setA pos q b.quantum }

/-- `Board::clear_quantum_state`. -/
def Board.clear_quantum_state (b : Board) (pos : Position) : Board :=
  { b with quantum := removeA pos b.quantum }

/-- `Superposition` as used by src/game/rules.rs: two positions and the
probability (an `f32`, modelled as `ℚ`) of the primary outcome. -/
structure Superposition where
  position1 : Position
  position2 : Position
  probability : ℚ
deriving DecidableEq

/-- `Entanglement` as used by src/game/rules.rs. -/
structure Entanglement where
  position1 : Position
  position2 : Position
deriving DecidableEq

/-- `GameResult` of src/game/rules.rs. -/
inductive GameResult where
  | WhiteWins
  | BlackWins
  | Draw
  | InProgress
deriving DecidableEq

/-- `MoveResult` of src/game/rules.rs. -/
inductive MoveResult where
  | Success
  | InvalidMove (reason : String)
  | GameOver (result : GameResult)
deriving DecidableEq

/-- `SuperpositionRule` of src/game/rules.rs. -/
structure SuperpositionRule where
  max_per_player : ℕ
  min_probability : ℚ
  allow_king_superposition : Bool
  allow_while_in_check : Bool
deriving DecidableEq

/-- `EntanglementRule` of src/game/rules.rs. -/
structure EntanglementRule where
  max_pairs_per_player : ℕ
  allowed_piece_types : List PieceType
  allow_different_piece_types : Bool
  allow_opponent_entanglement : Bool
deriving DecidableEq

/-- `QuantumRules` of src/game/rules.rs. -/
structure QuantumRules where
  superposition : SuperpositionRule
  entanglement : EntanglementRule
  capture_measurement_probability : ℚ
  allow_quantum_moves_in_check : Bool
deriving DecidableEq

/-- `MAX_SUPERPOSITIONS`. -/
def MAX_SUPERPOSITIONS : ℕ := 4

/-- `QuantumRules::default`. -/
def QuantumRules.standard : QuantumRules :=
  { superposition :=
      { max_per_player := MAX_SUPERPOSITIONS
        min_probability := 2 / 10
        allow_king_superposition := false
        allow_while_in_check := false }
    entanglement :=
      { max_pairs_per_player := 3
        allowed_piece_types := [.Knight, .Bishop, .Queen]
        allow_different_piece_types := true
        allow_opponent_entanglement := false }
    capture_measurement_probability := 5 / 10
    allow_quantum_moves_in_check := false }

/-- `QuantumMove` of src/game/rules.rs. -/
inductive QuantumMove where
  | Classical (piece : Piece) (fromPos toPos : Position)
  | Split (piece : Piece) (fromPos to_primary to_secondary : Position)
      (probability : ℚ)
  | Merge (piece : Piece) (from_primary from_secondary toPos : Position)
  | Entangle (piece1 : Piece) (position1 : Position) (piece2 : Piece)
      (position2 : Position)
  | Measure (positions : List Position)
deriving DecidableEq

/-- `Rules` of src/game/rules.rs: the live superposition set (a `HashSet`,
modelled as a list with set-insertion), the entanglement list, the game
result and the configuration. -/
structure Rules where
  superpositions : List Superposition
  entanglements : List Entanglement
  game_result : GameResult
  quantum_rules : QuantumRules
deriving DecidableEq

/-- `Rules::new`. -/
def Rules.new : Rules :=
  { superpositions := []
    entanglements := []
    game_result := .InProgress
    quantum_rules := QuantumRules.standard }

/-- The squares the nested `for y in 0..8 { for x in 0..8 { ... } }` scans
visit, in visiting order (`y` outer, `x` inner). -/
def scanList : List Position :=
  (List.range 64).map (fun i => ⟨i % 8, i / 8⟩)

/-- `is_valid_pawn_move`: the source is an acknowledged placeholder that
accepts every move ("Placeholder - would contain actual implementation"). -/
def is_valid_pawn_move (_b : Board) (_piece : Piece)
    (_fromPos _toPos : Position) : Bool :=
  true

/-- `is_valid_knight_move`: an L-shape, |dx|,|dy| a 2,1 pattern. -/
def is_valid_knight_move (_b : Board) (_piece : Piece)
    (fromPos toPos : Position) : Bool :=
  let dx := ((toPos.x : ℤ) - (fromPos.x : ℤ)).natAbs
  let dy := ((toPos.y : ℤ) - (fromPos.y : ℤ)).natAbs
  decide ((dx = 2 ∧ dy = 1) ∨ (dx = 1 ∧ dy = 2))

/-- `is_diagonal_path_clear`: the source walks one diagonal step at a time
from `fromPos` until it reaches `toPos`, requiring every strictly
intermediate square to be empty.  With `|dx| = |dy| = n` (which the caller
`is_valid_bishop_move` has checked) the walk visits exactly the squares at
steps `1 .. n-1`, checked here over `List.range n` (step 0 is the start
square, which the loop never checks). -/
def is_diagonal_path_clear (b : Board) (fromPos toPos : Position) : Bool :=
  let dx := ((toPos.x : ℤ) - (fromPos.x : ℤ)).sign
  let dy := ((toPos.y : ℤ) - (fromPos.y : ℤ)).sign
  let n := ((toPos.x : ℤ) - (fromPos.x : ℤ)).natAbs
  (List.range n).all (fun k =>
    if k = 0 then true
    else
      (b.get_piece ⟨((fromPos.x : ℤ) + k * dx).toNat,
        ((fromPos.y : ℤ) + k * dy).toNat⟩).isNone)

/-- `is_straight_path_clear`: every strictly intermediate square of a
horizontal or vertical segment is empty (`for y in start..end` becomes
`List.range' start (end - start)`). -/
def is_straight_path_clear (b : Board) (fromPos toPos : Position) : Bool :=
  if fromPos.x = toPos.x then
    let start := min fromPos.y toPos.y + 1
    let stop := max fromPos.y toPos.y
    (List.range' start (stop - start)).all (fun y =>
      (b.get_piece ⟨fromPos.x, y⟩).isNone)
  else
    let start := min fromPos.x toPos.x + 1
    let stop := max fromPos.x toPos.x
    (List.range' start (stop - start)).all (fun x =>
      (b.get_piece ⟨x, fromPos.y⟩).isNone)

/-- `is_valid_bishop_move`. -/
def is_valid_bishop_move (b : Board) (_piece : Piece)
    (fromPos toPos : Position) : Bool :=
  let dx := ((toPos.x : ℤ) - (fromPos.x : ℤ)).natAbs
  let dy := ((toPos.y : ℤ) - (fromPos.y : ℤ)).natAbs
  if dx ≠ dy then false
  else is_diagonal_path_clear b fromPos toPos

/-- `is_valid_rook_move`. -/
def is_valid_rook_move (b : Board) (_piece : Piece)
    (fromPos toPos : Position) : Bool :=
  if fromPos.x ≠ toPos.x ∧ fromPos.y ≠ toPos.y then false
  else is_straight_path_clear b fromPos toPos

/-- `is_valid_queen_move`. -/
def is_valid_queen_move (b : Board) (piece : Piece)
    (fromPos toPos : Position) : Bool :=
  is_valid_rook_move b piece fromPos toPos ||
    is_valid_bishop_move b piece fromPos toPos

/-- `is_valid_king_move`. -/
def is_valid_king_move (_b : Board) (_piece : Piece)
    (fromPos toPos : Position) : Bool :=
  let dx := ((toPos.x : ℤ) - (fromPos.x : ℤ)).natAbs
  let dy := ((toPos.y : ℤ) - (fromPos.y : ℤ)).natAbs
  decide (dx ≤ 1 ∧ dy ≤ 1)

/-- `Rules::is_valid_classical_move`: reject a same-colour destination, then
dispatch on the piece type. -/
def is_valid_classical_move (b : Board) (piece : Piece)
    (fromPos toPos : Position) : Bool :=
  let same_color :=
    match b.get_piece toPos with
    | some dest_piece => dest_piece.color == piece.color
    | none => false
  if same_color then false
  else
    match piece.piece_type with
    | .Pawn => is_valid_pawn_move b piece fromPos toPos
    | .Knight => is_valid_knight_move b piece fromPos toPos
    | .Bishop => is_valid_bishop_move b piece fromPos toPos
    | .Rook => is_valid_rook_move b piece fromPos toPos
    | .Queen => is_valid_queen_move b piece fromPos toPos
    | .King => is_valid_king_move b piece fromPos toPos

/-- `Rules::is_valid_split_move`. -/
def is_valid_split_move (rules : Rules) (b : Board) (piece : Piece)
    (fromPos to_primary to_secondary : Position) : Bool :=
  let player_superpositions :=
    (rules.superpositions.filter (fun s =>
      ((b.get_piece s.position1).map (fun p => p.color == piece.color)).getD false ||
      ((b.get_piece s.position2).map (fun p => p.color == piece.color)).getD false)).length
  if player_superpositions ≥ rules.quantum_rules.superposition.max_per_player then
    false
  else if piece.piece_type == .King &&
      !rules.quantum_rules.superposition.allow_king_superposition then
    false
  else
    is_valid_classical_move b piece fromPos to_primary &&
      is_valid_classical_move b piece fromPos to_secondary

/-- `Rules::is_valid_merge_move`. -/
def is_valid_merge_move (rules : Rules) (b : Board) (piece : Piece)
    (from_primary from_secondary toPos : Position) : Bool :=
  let superposition_exists := rules.superpositions.any (fun s =>
    decide ((s.position1 = from_primary ∧ s.position2 = from_secondary) ∨
      (s.position1 = from_secondary ∧ s.position2 = from_primary)))
  if !superposition_exists then false
  else
    is_valid_classical_move b piece from_primary toPos &&
      is_valid_classical_move b piece from_secondary toPos

/-- `Rules::is_valid_entangle_move`. -/
def is_valid_entangle_move (rules : Rules) (_b : Board) (piece1 : Piece)
    (_position1 : Position) (piece2 : Piece) (_position2 : Position) : Bool :=
  if piece1.color != piece2.color &&
      !rules.quantum_rules.entanglement.allow_opponent_entanglement then
    false
  else if piece1.piece_type != piece2.piece_type &&
      !rules.quantum_rules.entanglement.allow_different_piece_types then
    false
  else
    let allowed_types := rules.quantum_rules.entanglement.allowed_piece_types
    decide (piece1.piece_type ∈ allowed_types) &&
      decide (piece2.piece_type ∈ allowed_types)

/-- Whether the board holds a king of the given colour at a position (the
repeated `map_or` test of `is_king_in_check`). -/
def kingAt (b : Board) (pos : Position) (is_white : Bool) : Bool :=
  ((b.get_piece pos).map (fun p =>
    p.piece_type == PieceType.King && p.color == is_white)).getD false

/-- `Vec::dedup`: remove consecutive duplicates (the `positions.dedup()`
call of `is_king_in_check`). -/
def dedupConsecutive : List Position → List Position
  | [] => []
  | [a] => [a]
  | a :: b :: rest =>
      if a = b then dedupConsecutive (b :: rest)
      else a :: dedupConsecutive (b :: rest)

/-- The first square of the scan holding a king of the given colour (the
king-search loops of `is_king_in_check`). -/
def find_king (b : Board) (is_white : Bool) : Option Position :=
  scanList.find? (fun pos => kingAt b pos is_white)

/-- The king-position vector `is_king_in_check` builds: the found king square
followed, for each active superposition, by both its squares whenever either
square holds a king of the colour, then `dedup`-ed. -/
def king_positions_list (rules : Rules) (b : Board) (is_white : Bool)
    (kp : Position) : List Position :=
  dedupConsecutive (kp ::
    rules.superpositions.foldr (fun s acc =>
      (if kingAt b s.position1 is_white then [s.position1, s.position2] else []) ++
      (if kingAt b s.position2 is_white then [s.position1, s.position2] else []) ++
      acc) [])

/-- `Rules::is_king_in_check`. -/
def is_king_in_check (rules : Rules) (b : Board) (is_white : Bool) : Bool :=
  match find_king b is_white with
  | none => false
  | some kp =>
      (king_positions_list rules b is_white kp).any (fun king_pos =>
        scanList.any (fun pos =>
          match b.get_piece pos with
          | some piece =>
              piece.color != is_white &&
                is_valid_classical_move b piece pos king_pos
          | none => false))

/-- `Rules::has_any_legal_move`: some piece of the colour has a valid
classical move whose simulated application leaves its king out of check. -/
def has_any_legal_move (rules : Rules) (b : Board) (is_white : Bool) : Bool :=
  scanList.any (fun pos =>
    match b.get_piece pos with
    | some piece =>
        piece.color == is_white &&
          scanList.any (fun dest =>
            is_valid_classical_move b piece pos dest &&
              !is_king_in_check rules ((b.remove_piece pos).set_piece dest piece)
                is_white)
    | none => false)

/-- `Rules::is_checkmate`. -/
def is_checkmate (rules : Rules) (b : Board) (is_white : Bool) : Bool :=
  is_king_in_check rules b is_white && !has_any_legal_move rules b is_white

/-- `Rules::is_stalemate`. -/
def is_stalemate (rules : Rules) (b : Board) (is_white : Bool) : Bool :=
  !is_king_in_check rules b is_white && !has_any_legal_move rules b is_white

/-- The piece counts of `is_draw_by_insufficient_material`:
(white knights, white bishops, black knights, black bishops, others). -/
def material_counts (b : Board) : ℕ × ℕ × ℕ × ℕ × ℕ :=
  scanList.foldl (fun acc pos =>
    match b.get_piece pos with
    | some piece =>
        match piece.piece_type with
        | .King => acc
        | .Knight =>
            if piece.color then (acc.1 + 1, acc.2.1, acc.2.2.1, acc.2.2.2.1, acc.2.2.2.2)
            else (acc.1, acc.2.1, acc.2.2.1 + 1, acc.2.2.2.1, acc.2.2.2.2)
        | .Bishop =>
            if piece.color then (acc.1, acc.2.1 + 1, acc.2.2.1, acc.2.2.2.1, acc.2.2.2.2)
            else (acc.1, acc.2.1, acc.2.2.1, acc.2.2.2.1 + 1, acc.2.2.2.2)
        | _ => (acc.1, acc.2.1, acc.2.2.1, acc.2.2.2.1, acc.2.2.2.2 + 1)
    | none => acc) (0, 0, 0, 0, 0)

/-- `Rules::is_draw_by_insufficient_material`. -/
def is_draw_by_insufficient_material (_rules : Rules) (b : Board) : Bool :=
  let c := material_counts b
  let white_knights := c.1
  let white_bishops := c.2.1
  let black_knights := c.2.2.1
  let black_bishops := c.2.2.2.1
  let other_pieces := c.2.2.2.2
  if other_pieces = 0 ∧ white_knights = 0 ∧ white_bishops = 0 ∧
      black_knights = 0 ∧ black_bishops = 0 then true
  else if other_pieces = 0 ∧
      ((white_knights = 0 ∧ white_bishops = 1 ∧ black_knights = 0 ∧ black_bishops = 0) ∨
       (white_knights = 1 ∧ white_bishops = 0 ∧ black_knights = 0 ∧ black_bishops = 0) ∨
       (black_knights = 0 ∧ black_bishops = 1 ∧ white_knights = 0 ∧ white_bishops = 0) ∨
       (black_knights = 1 ∧ black_bishops = 0 ∧ white_knights = 0 ∧ white_bishops = 0)) then
    true
  else if other_pieces = 0 ∧ white_knights = 0 ∧ black_knights = 0 ∧
      white_bishops = 1 ∧ black_bishops = 1 then
    false
  else
    false

/-- `Rules::update_game_state`: set the game result on checkmate, stalemate
or insufficient material; the updated `Rules` and the returned `MoveResult`. -/
def update_game_state (rules : Rules) (b : Board) : Rules × MoveResult :=
  let white_in_check := is_king_in_check rules b true
  let black_in_check := is_king_in_check rules b false
  if white_in_check && is_checkmate rules b true then
    ({ rules with game_result := .BlackWins }, .GameOver .BlackWins)
  else if black_in_check && is_checkmate rules b false then
    ({ rules with game_result := .WhiteWins }, .GameOver .WhiteWins)
  else if (!white_in_check && is_stalemate rules b true) ||
      (!black_in_check && is_stalemate rules b false) then
    ({ rules with game_result := .Draw }, .GameOver .Draw)
  else if is_draw_by_insufficient_material rules b then
    ({ rules with game_result := .Draw }, .GameOver .Draw)
  else
    (rules, .Success)

/-- Modelled from the spec: the body of `Rules::collapse_quantum_state` is
cut off mid-function in the repository (src/src/game/rules.rs stops at line
739).  Following the surviving prefix and §4.2/§4.3: every active
superposition containing the position is resolved by one random draw `r`
(`g` is the injected randomness stream, one rational in `[0,1)` per draw) —
outcome primary when `r < probability` — the superposition record is
removed, and both squares' quantum flags are cleared; positions not in any
superposition are a no-op.  [The spec says the piece is placed at the
resolved square, but a `Superposition` record stores no piece, so no piece
placement can be derived; the board's piece map is left as is.] -/
def collapse_quantum_state (g : ℕ → ℚ) (rules : Rules) (b : Board)
    (pos : Position) (draws : ℕ) : Rules × Board × ℕ :=
  rules.superpositions.foldl (fun acc s =>
    if s.position1 = pos ∨ s.position2 = pos then
      let r := g acc.2.2
      let _chosen := if r < s.probability then s.position1 else s.position2
      ({ acc.1 with superpositions := acc.1.superpositions.erase s },
        (acc.2.1.clear_quantum_state s.position1).clear_quantum_state s.position2,
        acc.2.2 + 1)
    else acc) (rules, b, draws)

/-- `Rules::execute_move`: validate and execute one move; returns the
`MoveResult` together with the updated rules state and board (the mutable
`&mut self`/`&mut Board` of the source).  `g` is the injected randomness
stream used by the `Measure` branch. -/
def execute_move (g : ℕ → ℚ) (rules : Rules) (b : Board)
    (quantum_move : QuantumMove) : MoveResult × Rules × Board :=
  match quantum_move with
  | .Classical piece fromPos toPos =>
      if !is_valid_classical_move b piece fromPos toPos then
        (.InvalidMove "Invalid classical move", rules, b)
      else
        let b1 := (b.remove_piece fromPos).set_piece toPos piece
        let rules1 := (update_game_state rules b1).1
        (.Success, rules1, b1)
  | .Split piece fromPos to_primary to_secondary probability =>
      if !is_valid_split_move rules b piece fromPos to_primary to_secondary then
        (.InvalidMove "Invalid split move", rules, b)
      else
        let s : Superposition :=
          { position1 := to_primary, position2 := to_secondary,
            probability := probability }
        let b1 := b.remove_piece fromPos
        let rules1 := { rules with superpositions :=
          if s ∈ rules.superpositions then rules.superpositions
          else rules.superpositions ++ [s] }
        let b2 := (b1.set_quantum_state to_primary .Superposition).set_quantum_state
          to_secondary .Superposition
        (.Success, rules1, b2)
  | .Merge piece from_primary from_secondary toPos =>
      if !is_valid_merge_move rules b piece from_primary from_secondary toPos then
        (.InvalidMove "Invalid merge move", rules, b)
      else
        match rules.superpositions.find? (fun s =>
          decide ((s.position1 = from_primary ∧ s.position2 = from_secondary) ∨
            (s.position1 = from_secondary ∧ s.position2 = from_primary))) with
        | some s =>
            let rules1 := { rules with
              superpositions := rules.superpositions.erase s }
            let b1 := (b.clear_quantum_state from_primary).clear_quantum_state
              from_secondary
            let b2 := b1.set_piece toPos piece
            (.Success, rules1, b2)
        | none =>
            (.InvalidMove "Invalid merge move", rules, b)
  | .Entangle piece1 position1 piece2 position2 =>
      if !is_valid_entangle_move rules b piece1 position1 piece2 position2 then
        (.InvalidMove "Invalid entanglement move", rules, b)
      else
        let rules1 := { rules with entanglements :=
          rules.entanglements ++ [{ position1 := position1, position2 := position2 }] }
        let b1 := (b.set_quantum_state position1 .Entangled).set_quantum_state
          position2 .Entangled
        (.Success, rules1, b1)
  | .Measure positions =>
      let collapsed := positions.foldl (fun acc pos =>
        collapse_quantum_state g acc.1 acc.2.1 pos acc.2.2) (rules, b, 0)
      let rules1 := (update_game_state collapsed.1 collapsed.2.1).1
      (.Success, rules1, collapsed.2.1)

end QC

/-- Whether an `Except` is `ok`. -/
def isOkE {ε α : Type} : Except ε α → Bool
  | .ok _ => true
  | .error _ => false

/-- The `ok` payload of an `Except`, with a default for the error case. -/
def okD {ε α : Type} (d : α) : Except ε α → α
  | .ok a => a
  | .error _ => d

namespace QC

/-- The king's position set as the spec words it: the king's actual square
together with both squares of any superposition in which a king of that
colour participates. -/
def in_king_set (rules : Rules) (b : Board) (is_white : Bool) (kp q : Position) :
    Prop :=
  q = kp ∨ ∃ s ∈ rules.superpositions,
    (kingAt b s.position1 is_white = true ∨ kingAt b s.position2 is_white = true) ∧
    (q = s.position1 ∨ q = s.position2)

end QC

namespace QC

/-- A rules state whose game has already ended in a draw (a terminal state),
for evaluating `execute_move` after termination. -/
def rulesDrawC1 : Rules :=
  { Rules.new with game_result := .Draw }

/-- A board holding a single white knight at (1,0). -/
def boardC1 : Board :=
  { pieces := [(⟨1, 0⟩, ⟨.Knight, true⟩)], quantum := [] }

/-- A valid classical knight move from (1,0) to (2,2). -/
def moveC1 : QuantumMove :=
  .Classical ⟨.Knight, true⟩ ⟨1, 0⟩ ⟨2, 2⟩

/-- The empty board. -/
def boardEmpty : Board :=
  { pieces := [], quantum := [] }

/-- An invalid classical knight move (one square straight ahead). -/
def moveC2 : QuantumMove :=
  .Classical ⟨.Knight, true⟩ ⟨0, 0⟩ ⟨0, 1⟩

/-- A board with a white king on e1 ((4,0)) attacked by a black rook on e6
((4,5)) along a clear file. -/
def boardC3 : Board :=
  { pieces := [(⟨4, 0⟩, ⟨.King, true⟩), (⟨4, 5⟩, ⟨.Rook, false⟩)],
    quantum := [] }

end QC


/-! ## Theorems -/

namespace QProb

theorem calculate_position_modifier_eq (position : List Char) :
    calculate_position_modifier position =
      if 2 ≤ position.length ∧
          (position.getD 0 ' ' = 'd' ∨ position.getD 0 ' ' = 'e') ∧
          (position.getD 1 ' ' = '4' ∨ position.getD 1 ' ' = '5') then
        (1 : ℚ) / 20
      else 0 := by
  match position with
  | [] => simp [calculate_position_modifier]
  | [a] => simp [calculate_position_modifier]
  | a :: b :: t =>
      have h1 : ¬((a :: b :: t).length < 2) := by simp
      have h2 : 2 ≤ (a :: b :: t).length := by simp
      simp only [calculate_position_modifier, if_neg h1, List.getD_cons_zero,
        List.getD_cons_succ]
      by_cases hc : (a = 'd' ∨ a = 'e') ∧ (b = '4' ∨ b = '5')
      · rw [if_pos hc, if_pos ⟨h2, hc.1, hc.2⟩]
      · rw [if_neg hc, if_neg (fun hh => hc ⟨hh.2.1, hh.2.2⟩)]

theorem calculate_stake_modifier_nonneg (stake_amount : ℕ) :
    0 ≤ calculate_stake_modifier stake_amount := by
  unfold calculate_stake_modifier MAX_STAKE_BONUS
  positivity

theorem calculate_position_modifier_nonneg (position : List Char) :
    0 ≤ calculate_position_modifier position := by
  rw [calculate_position_modifier_eq]
  split <;> norm_num

theorem calculate_probability_lower (stake_amount : ℕ) (position : List Char)
    (zone : ProbabilityZone) :
    1 / 10 ≤ calculate_probability stake_amount position zone := by
  have hs := calculate_stake_modifier_nonneg stake_amount
  have hp := calculate_position_modifier_nonneg position
  unfold calculate_probability MAX_PROBABILITY MIN_PROBABILITY
  refine le_trans (le_min ?_ (by norm_num)) (le_max_left _ _)
  cases zone <;> simp only [] <;> linarith

theorem calculate_probability_upper (stake_amount : ℕ) (position : List Char)
    (zone : ProbabilityZone) :
    calculate_probability stake_amount position zone ≤ 19 / 20 := by
  unfold calculate_probability MAX_PROBABILITY MIN_PROBABILITY
  exact max_le (min_le_right _ _) (by norm_num)

/-- C6: `determine_probability_zone` applies the capture shift, or else the
stake shift, to the base zone — amended: the stake shift is applied only to
non-capture moves; a capture move receives the capture shift alone, whatever
the stake. -/
theorem C6_zone_shift_refines (piece_type : String) (is_capture : Bool)
    (stake_amount : ℕ) :
    determine_probability_zone piece_type is_capture stake_amount =
      if is_capture then spec_shift_toward_very_low (base_zone_of piece_type)
      else if stake_amount > 50 then
        spec_shift_toward_very_high (base_zone_of piece_type)
      else base_zone_of piece_type := by
  cases h : base_zone_of piece_type <;>
    cases is_capture <;>
      simp [determine_probability_zone, spec_shift_toward_very_low,
        spec_shift_toward_very_high, h]

/-- C6 counterexample: for a capture by a pawn with stake 100 the code
returns `Medium`, the capture shift alone (High → Medium); the claim's
"both shifts" (capture then stake, each one step) would give `High`. -/
theorem C6_capture_stake_counterexample :
    determine_probability_zone "pawn" true 100 = ProbabilityZone.Medium ∧
    determine_probability_zone "pawn" true 0 = ProbabilityZone.Medium ∧
    spec_shift_toward_very_high
      (spec_shift_toward_very_low (base_zone_of "pawn")) = ProbabilityZone.High ∧
    ProbabilityZone.Medium ≠ ProbabilityZone.High := by
  decide

/-- C7: `calculate_probability` is the zone base plus the stake modifier
`min(stake,100)/100*0.3` plus the centre-square bonus, clamped to
[0.05, 0.95] — amended: the 0.05 bonus applies whenever the first two
characters of the landing-square string are d/e and 4/5, not only when the
string is exactly one of d4, d5, e4, e5. -/
theorem C7_probability_formula (stake_amount : ℕ) (position : List Char)
    (zone : ProbabilityZone) :
    calculate_probability stake_amount position zone =
      max MIN_PROBABILITY (min MAX_PROBABILITY
        (spec_zone_base zone + spec_stake_modifier stake_amount +
          (if 2 ≤ position.length ∧
              (position.getD 0 ' ' = 'd' ∨ position.getD 0 ' ' = 'e') ∧
              (position.getD 1 ' ' = '4' ∨ position.getD 1 ' ' = '5') then
            (1 : ℚ) / 20
          else 0))) ∧
    MIN_PROBABILITY ≤ calculate_probability stake_amount position zone ∧
    calculate_probability stake_amount position zone ≤ MAX_PROBABILITY := by
  refine ⟨?_, ?_, ?_⟩
  · rw [← calculate_position_modifier_eq]
    cases zone <;>
      simp [calculate_probability, spec_zone_base, spec_stake_modifier,
        calculate_stake_modifier, MAX_STAKE_BONUS, max_comm, min_comm]
  · exact le_trans (by norm_num [MIN_PROBABILITY])
      (calculate_probability_lower stake_amount position zone)
  · exact calculate_probability_upper stake_amount position zone

/-- C7 counterexample: for the landing-square string "e4x" the code grants
the centre bonus (it looks only at the first two characters), while the
claim's "one of d4, d5, e4, e5" gives none, so the two values differ. -/
theorem C7_center_square_counterexample :
    calculate_probability 0 ['e', '4', 'x'] ProbabilityZone.Medium = 11 / 20 ∧
    spec_probability 0 ['e', '4', 'x'] ProbabilityZone.Medium = 1 / 2 ∧
    calculate_probability 0 ['e', '4', 'x'] ProbabilityZone.Medium ≠
      spec_probability 0 ['e', '4', 'x'] ProbabilityZone.Medium := by
  have h1 : calculate_position_modifier ['e', '4', 'x'] = 1 / 20 := by
    rw [calculate_position_modifier_eq, if_pos (by decide)]
  have h2 : spec_position_modifier ['e', '4', 'x'] = 0 := by
    rw [spec_position_modifier, if_neg (by decide)]
  have h3 : calculate_probability 0 ['e', '4', 'x'] ProbabilityZone.Medium = 11 / 20 := by
    unfold calculate_probability calculate_stake_modifier MAX_STAKE_BONUS
      MAX_PROBABILITY MIN_PROBABILITY
    rw [h1]
    norm_num [max_def, min_def]
  have h4 : spec_probability 0 ['e', '4', 'x'] ProbabilityZone.Medium = 1 / 2 := by
    unfold spec_probability spec_zone_base spec_stake_modifier
      MAX_PROBABILITY MIN_PROBABILITY
    rw [h2]
    norm_num [max_def, min_def]
  refine ⟨h3, h4, ?_⟩
  rw [h3, h4]
  norm_num

/-- C10: with `is_entangled = true` the result is exactly 0.8 times the
unentangled result — amended: since the unentangled result in fact lies in
[0.1, 0.95], the entangled result lies in [0.08, 0.76] (inside the claimed
[0.04, 0.76]) and never falls below the 0.05 minimum. -/
theorem C10_entangled_scaling (piece_type : String)
    (from_position to_position : List Char) (is_capture : Bool)
    (stake_amount : ℕ) :
    calculate_move_probability piece_type from_position to_position is_capture
        stake_amount true =
      (8 / 10) * calculate_move_probability piece_type from_position to_position
        is_capture stake_amount false ∧
    1 / 25 ≤ calculate_move_probability piece_type from_position to_position
        is_capture stake_amount true ∧
    calculate_move_probability piece_type from_position to_position is_capture
        stake_amount true ≤ 19 / 25 ∧
    MIN_PROBABILITY ≤ calculate_move_probability piece_type from_position
        to_position is_capture stake_amount true := by
  have hl := calculate_probability_lower stake_amount to_position
    (determine_probability_zone piece_type is_capture stake_amount)
  have hu := calculate_probability_upper stake_amount to_position
    (determine_probability_zone piece_type is_capture stake_amount)
  unfold calculate_move_probability
  simp only [if_true, if_false, MIN_PROBABILITY]
  refine ⟨mul_comm _ _, by linarith, by linarith, by linarith⟩

/-- C10 counterexample: no input at all makes the entangled probability fall
below the 0.05 minimum (it is always at least 0.08), refuting the claim's
"can fall below the 0.05 minimum". -/
theorem C10_never_below_min_counterexample :
    ¬ ∃ (piece_type : String) (from_position to_position : List Char)
        (is_capture : Bool) (stake_amount : ℕ),
      calculate_move_probability piece_type from_position to_position is_capture
        stake_amount true < MIN_PROBABILITY := by
  rintro ⟨pt, fp, tp, cap, st, h⟩
  have hl := calculate_probability_lower st tp
    (determine_probability_zone pt cap st)
  unfold calculate_move_probability at h
  simp only [if_true, MIN_PROBABILITY] at h
  linarith

end QProb

namespace QC

/-- C1: the claim says a terminal game makes every further `execute_move`
fail with `GameAlreadyEnded` and leave all state unchanged; the code never
consults `game_result` in `execute_move` (and `MoveResult` has no
`GameAlreadyEnded` variant at all, though `GameError::GameAlreadyEnded`
exists in src/game/mod.rs), so a move submitted after a draw executes
normally: it returns `Success` and moves the piece. -/
theorem C1_terminal_state_not_enforced :
    rulesDrawC1.game_result = GameResult.Draw ∧
    (execute_move (fun _ => 0) rulesDrawC1 boardC1 moveC1).1 =
      MoveResult.Success ∧
    (execute_move (fun _ => 0) rulesDrawC1 boardC1 moveC1).2.2.get_piece
      ⟨1, 0⟩ = none ∧
    (execute_move (fun _ => 0) rulesDrawC1 boardC1 moveC1).2.2.get_piece
      ⟨2, 2⟩ = some ⟨.Knight, true⟩ := by
  decide

/-- C2: whenever `execute_move` answers `InvalidMove`, the rules state (the
superposition set, the entanglement set and the game result) and the board
are returned exactly as they were passed in: every `InvalidMove` return
happens before any mutation. -/
theorem C2_invalid_move_no_mutation (g : ℕ → ℚ) (rules : Rules) (b : Board)
    (mv : QuantumMove) (reason : String)
    (h : (execute_move g rules b mv).1 = .InvalidMove reason) :
    (execute_move g rules b mv).2.1 = rules ∧
    (execute_move g rules b mv).2.2 = b := by
  cases mv with
  | Classical piece fromPos toPos =>
      cases hv : is_valid_classical_move b piece fromPos toPos <;>
        simp [execute_move, hv] at h ⊢
  | Split piece fromPos to_primary to_secondary probability =>
      cases hv : is_valid_split_move rules b piece fromPos to_primary
          to_secondary <;>
        simp [execute_move, hv] at h ⊢
  | Merge piece from_primary from_secondary toPos =>
      cases hv : is_valid_merge_move rules b piece from_primary from_secondary
          toPos
      · simp [execute_move, hv] at h ⊢
      · have hstep : execute_move g rules b
            (.Merge piece from_primary from_secondary toPos) =
            match rules.superpositions.find? (fun s =>
              decide ((s.position1 = from_primary ∧ s.position2 = from_secondary) ∨
                (s.position1 = from_secondary ∧ s.position2 = from_primary))) with
            | some s =>
                (.Success, { rules with superpositions := rules.superpositions.erase s },
                  ((b.clear_quantum_state from_primary).clear_quantum_state
                    from_secondary).set_piece toPos piece)
            | none => (.InvalidMove "Invalid merge move", rules, b) := by
          simp only [execute_move]
          rw [hv]
          rfl
        rcases hf : rules.superpositions.find? (fun s =>
          decide ((s.position1 = from_primary ∧ s.position2 = from_secondary) ∨
            (s.position1 = from_secondary ∧ s.position2 = from_primary))) with
          _ | sp
        · rw [hstep, hf]
          exact ⟨rfl, rfl⟩
        · rw [hstep, hf] at h
          exact absurd h (by simp)
  | Entangle piece1 position1 piece2 position2 =>
      cases hv : is_valid_entangle_move rules b piece1 position1 piece2
          position2 <;>
        simp [execute_move, hv] at h ⊢
  | Measure positions =>
      simp [execute_move] at h

/-- C2 witness: a concrete invalid knight move on the empty board is refused
with `InvalidMove` and returns the rules state and board unchanged. -/
theorem C2_invalid_move_no_mutation_witness :
    (execute_move (fun _ => 0) Rules.new boardEmpty moveC2).1 =
      MoveResult.InvalidMove "Invalid classical move" ∧
    (execute_move (fun _ => 0) Rules.new boardEmpty moveC2).2.1 = Rules.new ∧
    (execute_move (fun _ => 0) Rules.new boardEmpty moveC2).2.2 = boardEmpty := by
  have hframe := C2_invalid_move_no_mutation (fun _ => 0) Rules.new boardEmpty
    moveC2 "Invalid classical move" (by decide)
  exact ⟨by decide, hframe.1, hframe.2⟩

end QC

namespace QC

theorem mem_scanList (p : Position) : p ∈ scanList ↔ p.x < 8 ∧ p.y < 8 := by
  constructor
  · intro hp
    simp only [scanList, List.mem_map, List.mem_range] at hp
    obtain ⟨i, hi, rfl⟩ := hp
    exact ⟨Nat.mod_lt _ (by norm_num), Nat.div_lt_of_lt_mul (by omega)⟩
  · rintro ⟨hx, hy⟩
    simp only [scanList, List.mem_map, List.mem_range]
    refine ⟨p.y * 8 + p.x, by omega, ?_⟩
    have h1 : (p.y * 8 + p.x) % 8 = p.x := by omega
    have h2 : (p.y * 8 + p.x) / 8 = p.y := by omega
    cases p
    simp_all

theorem mem_dedupConsecutive (q : Position) :
    ∀ l : List Position, q ∈ dedupConsecutive l ↔ q ∈ l
  | [] => by simp [dedupConsecutive]
  | [a] => by simp [dedupConsecutive]
  | a :: b :: rest => by
      rw [dedupConsecutive]
      by_cases hab : a = b
      · rw [if_pos hab, mem_dedupConsecutive q (b :: rest)]
        subst hab
        simp [List.mem_cons]
      · rw [if_neg hab]
        simp [List.mem_cons, mem_dedupConsecutive q (b :: rest)]

theorem mem_king_block (b : Board) (is_white : Bool)
    (sps : List Superposition) (q : Position) :
    q ∈ sps.foldr (fun s acc =>
        (if kingAt b s.position1 is_white then [s.position1, s.position2] else []) ++
        (if kingAt b s.position2 is_white then [s.position1, s.position2] else []) ++
        acc) [] ↔
      ∃ s ∈ sps,
        (kingAt b s.position1 is_white = true ∨ kingAt b s.position2 is_white = true) ∧
        (q = s.position1 ∨ q = s.position2) := by
  induction sps with
  | nil => simp
  | cons s rest ih =>
      simp only [List.foldr_cons, List.mem_append, ih, List.mem_cons]
      by_cases h1 : kingAt b s.position1 is_white <;>
        by_cases h2 : kingAt b s.position2 is_white <;>
          simp [h1, h2] <;> tauto

theorem mem_king_positions_list (rules : Rules) (b : Board) (is_white : Bool)
    (kp q : Position) :
    q ∈ king_positions_list rules b is_white kp ↔
      in_king_set rules b is_white kp q := by
  unfold king_positions_list in_king_set
  rw [mem_dedupConsecutive, List.mem_cons, mem_king_block]

/-- C3: a colour is reported in check exactly when some opposing piece on
the board has a valid classical move onto some position of the king's
position set — the found king square together with both squares of any
superposition at whose squares a king of that colour stands. -/
theorem C3_check_detection (rules : Rules) (b : Board) (is_white : Bool)
    (kp : Position) (hk : find_king b is_white = some kp) :
    is_king_in_check rules b is_white = true ↔
      ∃ pos piece target, pos.x < 8 ∧ pos.y < 8 ∧
        b.get_piece pos = some piece ∧ piece.color ≠ is_white ∧
        in_king_set rules b is_white kp target ∧
        is_valid_classical_move b piece pos target = true := by
  unfold is_king_in_check
  rw [hk, List.any_eq_true]
  constructor
  · rintro ⟨target, htarget, hscan⟩
    rw [List.any_eq_true] at hscan
    obtain ⟨pos, hpos, hcheck⟩ := hscan
    rw [mem_scanList] at hpos
    rcases hgp : b.get_piece pos with _ | piece
    · rw [hgp] at hcheck
      simp at hcheck
    · rw [hgp] at hcheck
      simp only [Bool.and_eq_true, bne_iff_ne, ne_eq] at hcheck
      exact ⟨pos, piece, target, hpos.1, hpos.2, hgp, hcheck.1,
        (mem_king_positions_list rules b is_white kp target).mp htarget,
        hcheck.2⟩
  · rintro ⟨pos, piece, target, hx, hy, hgp, hc, hks, hv⟩
    refine ⟨target,
      (mem_king_positions_list rules b is_white kp target).mpr hks, ?_⟩
    rw [List.any_eq_true]
    refine ⟨pos, (mem_scanList pos).mpr ⟨hx, hy⟩, ?_⟩
    rw [hgp]
    simp [hc, hv]

/-- C3 witness: on a board with a white king on (4,0) and a black rook on
(4,5), white is reported in check, and the equivalence produces the
attacking piece and target. -/
theorem C3_check_detection_witness :
    is_king_in_check Rules.new boardC3 true = true ∧
    (∃ pos piece target, pos.x < 8 ∧ pos.y < 8 ∧
      boardC3.get_piece pos = some piece ∧ piece.color ≠ true ∧
      in_king_set Rules.new boardC3 true ⟨4, 0⟩ target ∧
      is_valid_classical_move boardC3 piece pos target = true) :=
  ⟨by decide,
    (C3_check_detection Rules.new boardC3 true ⟨4, 0⟩ (by decide)).mp (by decide)⟩

end QC

section AssocLemmas

variable {α : Type} {β : Type} [DecidableEq α]

theorem lookupA_cons (e : α × β) (l : List (α × β)) (k : α) :
    lookupA k (e :: l) = if e.1 = k then some e.2 else lookupA k l := by
  unfold lookupA
  rw [List.find?_cons]
  by_cases h : e.1 = k <;> simp [h]

theorem updateA_cons (k : α) (f : β → β) (e : α × β) (l : List (α × β)) :
    updateA k f (e :: l) =
      (if e.1 = k then (e.1, f e.2) else e) :: updateA k f l :=
  rfl

theorem lookupA_updateA_self (k : α) (f : β → β) (l : List (α × β)) :
    lookupA k (updateA k f l) = (lookupA k l).map f := by
  induction l with
  | nil => rfl
  | cons e t ih =>
      rw [updateA_cons]
      by_cases h : e.1 = k
      · rw [if_pos h, lookupA_cons, lookupA_cons]
        simp [h]
      · rw [if_neg h, lookupA_cons, lookupA_cons, if_neg h, if_neg h, ih]

theorem lookupA_updateA_ne (k k' : α) (f : β → β) (l : List (α × β))
    (h : k ≠ k') : lookupA k (updateA k' f l) = lookupA k l := by
  induction l with
  | nil => rfl
  | cons e t ih =>
      rw [updateA_cons]
      by_cases he : e.1 = k'
      · have hne : ¬(e.1 = k) := fun hh => h (hh ▸ he)
        rw [if_pos he, lookupA_cons, lookupA_cons]
        dsimp only
        rw [if_neg hne, if_neg hne, ih]
      · rw [if_neg he, lookupA_cons, lookupA_cons, ih]

theorem lookupA_removeA_self (k : α) (l : List (α × β)) :
    lookupA k (removeA k l) = none := by
  induction l with
  | nil => rfl
  | cons e t ih =>
      by_cases h : e.1 = k
      · rw [show removeA k (e :: t) = removeA k t by
          simp [removeA, List.filter_cons, h]]
        exact ih
      · rw [show removeA k (e :: t) = e :: removeA k t by
          simp [removeA, List.filter_cons, h]]
        rw [lookupA_cons, if_neg h]
        exact ih

theorem lookupA_mapReplace (k : α) (v : β) (l : List (α × β))
    (h : (lookupA k l).isSome) :
    lookupA k (l.map (fun e => if e.1 = k then (k, v) else e)) = some v := by
  induction l with
  | nil => simp [lookupA] at h
  | cons e t ih =>
      by_cases he : e.1 = k
      · rw [List.map_cons, if_pos he, lookupA_cons]
        simp
      · rw [lookupA_cons, if_neg he] at h
        rw [List.map_cons, if_neg he, lookupA_cons, if_neg he]
        exact ih h

theorem lookupA_append_self (k : α) (v : β) (l : List (α × β))
    (h : lookupA k l = none) :
    lookupA k (l ++ [(k, v)]) = some v := by
  induction l with
  | nil => simp [lookupA]
  | cons e t ih =>
      rw [lookupA_cons] at h
      by_cases he : e.1 = k
      · rw [if_pos he] at h
        exact absurd h (by simp)
      · rw [if_neg he] at h
        rw [List.cons_append, lookupA_cons, if_neg he]
        exact ih h

theorem lookupA_setA_self (k : α) (v : β) (l : List (α × β)) :
    lookupA k (setA k v l) = some v := by
  unfold setA
  by_cases h : (lookupA k l).isSome
  · rw [if_pos h]
    exact lookupA_mapReplace k v l h
  · rw [if_neg h]
    exact lookupA_append_self k v l (Option.not_isSome_iff_eq_none.mp h)

end AssocLemmas

namespace QS

/-- C5: `superposition` fails exactly when the positions are empty, the
lengths differ, or the probabilities miss 1 by more than 1e-6; on success
each amplitude is the real value `sqrt(probability)` with zero imaginary
part, over exactly the given positions. -/
theorem C5_superposition_contract (positions : List ChessPosition)
    (probabilities : List ℝ) :
    (isOkE (superposition positions probabilities) = true ↔
      ¬(positions = [] ∨ positions.length ≠ probabilities.length ∨
        |probabilities.sum - 1| > 1 / 1000000)) ∧
    (∀ s, superposition positions probabilities = .ok s →
      s.amplitudes = probabilities.map (fun p => ⟨Real.sqrt p, 0⟩) ∧
      s.basis_states = positions ∧
      ∀ a ∈ s.amplitudes, a.im = 0) := by
  unfold superposition
  split_ifs with h1 h2 h3
  · constructor
    · exact iff_of_false (by simp [isOkE]) (fun hcon => hcon (.inl h1))
    · intro s hs
      exact absurd hs (by simp)
  · constructor
    · exact iff_of_false (by simp [isOkE]) (fun hcon => hcon (.inr (.inl h2)))
    · intro s hs
      exact absurd hs (by simp)
  · constructor
    · exact iff_of_false (by simp [isOkE]) (fun hcon => hcon (.inr (.inr h3)))
    · intro s hs
      exact absurd hs (by simp)
  · constructor
    · refine iff_of_true (by simp [isOkE]) ?_
      rintro (h | h | h) <;> contradiction
    · intro s hs
      cases hs
      refine ⟨rfl, rfl, ?_⟩
      intro a ha
      simp only [List.mem_map] at ha
      obtain ⟨p, _, rfl⟩ := ha
      rfl

end QS

namespace QS

theorem normSqSum_nonneg (s : QuantumState) : 0 ≤ normSqSum s := by
  apply List.sum_nonneg
  intro x hx
  rw [List.mem_map] at hx
  obtain ⟨a, _, rfl⟩ := hx
  exact Complex.normSq_nonneg a

theorem list_sum_map_div (l : List ℝ) (c : ℝ) :
    (l.map (fun x => x / c)).sum = l.sum / c := by
  induction l with
  | nil => simp
  | cons x t ih => simp [ih, add_div]

theorem normalize_of_pos (s : QuantumState) (h : 0 < normSqSum s) :
    normSqSum (normalize s) = 1 := by
  have hnn : (0 : ℝ) ≤ normSqSum s := le_of_lt h
  have hsq : Real.sqrt (normSqSum s) * Real.sqrt (normSqSum s) = normSqSum s :=
    Real.mul_self_sqrt hnn
  unfold normalize
  rw [if_pos (Real.sqrt_pos.mpr h)]
  unfold normSqSum at *
  rw [List.map_map]
  rw [List.map_congr_left (g := fun amp : ℂ =>
    Complex.normSq amp / (s.amplitudes.map Complex.normSq).sum) ?_]
  · rw [show (fun amp : ℂ =>
        Complex.normSq amp / (s.amplitudes.map Complex.normSq).sum) =
        (fun x : ℝ => x / (s.amplitudes.map Complex.normSq).sum) ∘ Complex.normSq
      from rfl]
    rw [← List.map_map, list_sum_map_div]
    exact div_self (ne_of_gt h)
  · intro a _
    simp only [Function.comp_apply]
    rw [map_div₀, Complex.normSq_ofReal, hsq]

theorem normalize_of_zero (s : QuantumState) (h : normSqSum s = 0) :
    normalize s = s := by
  unfold normalize
  rw [if_neg]
  rw [h, Real.sqrt_zero]
  exact lt_irrefl 0

theorem superposition_sum_eq (positions : List ChessPosition)
    (probabilities : List ℝ) (s : QuantumState)
    (hok : superposition positions probabilities = .ok s)
    (hnn : ∀ q ∈ probabilities, 0 ≤ q) :
    normSqSum s = probabilities.sum ∧
    |probabilities.sum - 1| ≤ 1 / 1000000 := by
  unfold superposition at hok
  split_ifs at hok with h1 h2 h3
  constructor
  · cases hok
    unfold normSqSum
    simp only [List.map_map, Function.comp]
    rw [List.map_congr_left (g := id) ?_]
    · rw [List.map_id]
    · intro q hq
      have h0 : (0 : ℝ) ≤ q := hnn q hq
      simp [Complex.normSq_mk, Real.mul_self_sqrt h0]
  · exact le_of_not_lt h3

/-- C4: the normalization invariant — amended: after a valid construction
`Σ|amplitude_i|²` equals the probability sum, within 1e-6 (not 1e-9) of 1;
after `add_position` and after a successful `apply_interference` the sum is
exactly 1 unless the pre-normalization amplitude vector has zero norm, and a
zero-norm vector makes `normalize` leave the state unchanged rather than
divide by zero. -/
theorem C4_normalization_invariant :
    (∀ (positions : List ChessPosition) (probabilities : List ℝ)
        (s : QuantumState),
      superposition positions probabilities = .ok s →
      (∀ q ∈ probabilities, 0 ≤ q) →
      normSqSum s = probabilities.sum ∧
      |probabilities.sum - 1| ≤ 1 / 1000000) ∧
    (∀ (s : QuantumState) (position : ChessPosition) (amplitude : ℂ),
      normSqSum (add_position s position amplitude) = 1 ∨
      (normSqSum (add_position_raw s position amplitude) = 0 ∧
        add_position s position amplitude = add_position_raw s position amplitude)) ∧
    (∀ (s : QuantumState) (position1 position2 : ChessPosition) (phase : ℝ)
        (s' : QuantumState),
      apply_interference s position1 position2 phase = .ok s' →
      normSqSum s' = 1 ∨ (normSqSum s' = 0 ∧
        ∃ i j, s' = interference_raw s i j phase)) ∧
    (∀ s : QuantumState, normSqSum s = 0 → normalize s = s) := by
  refine ⟨superposition_sum_eq, ?_, ?_, normalize_of_zero⟩
  · intro s position amplitude
    rcases lt_or_eq_of_le (normSqSum_nonneg (add_position_raw s position amplitude))
      with h | h
    · exact .inl (normalize_of_pos _ h)
    · exact .inr ⟨h.symm, normalize_of_zero _ h.symm⟩
  · intro s position1 position2 phase s' hok
    unfold apply_interference at hok
    rcases hi : s.basis_states.findIdx? (fun pos => decide (pos = position1)) with
      _ | i <;> rw [hi] at hok
    · rcases hj : s.basis_states.findIdx? (fun pos => decide (pos = position2)) with
        _ | j <;> rw [hj] at hok <;> exact absurd hok (by simp)
    · rcases hj : s.basis_states.findIdx? (fun pos => decide (pos = position2)) with
        _ | j <;> rw [hj] at hok
      · exact absurd hok (by simp)
      · cases hok
        rcases lt_or_eq_of_le (normSqSum_nonneg (interference_raw s i j phase))
          with h | h
        · exact .inl (normalize_of_pos _ h)
        · exact .inr ⟨by rw [normalize_of_zero _ h.symm]; exact h.symm,
            i, j, normalize_of_zero _ h.symm⟩

end QS

namespace QS

/-- C4 counterexample: probabilities `[0.5, 0.5 + 5e-7]` pass the 1e-6
construction tolerance, and the constructed state has
`Σ|amplitude_i|² = 1 + 5e-7`, which misses 1 by more than 1e-9 — the
invariant holds only to the 1e-6 tolerance after construction, not 1e-9. -/
theorem C4_tolerance_counterexample :
    isOkE (superposition [⟨"a1", 0, 0⟩, ⟨"a2", 1, 0⟩]
      [1 / 2, 1 / 2 + 1 / 2000000]) = true ∧
    1 / 1000000000 <
      |normSqSum (okD ⟨[], [], []⟩
        (superposition [⟨"a1", 0, 0⟩, ⟨"a2", 1, 0⟩]
          [1 / 2, 1 / 2 + 1 / 2000000])) - 1| := by
  have hsum : ([1 / 2, 1 / 2 + 1 / 2000000] : List ℝ).sum = 1 + 1 / 2000000 := by
    norm_num [List.sum_cons, List.sum_nil]
  have hok : superposition [⟨"a1", 0, 0⟩, ⟨"a2", 1, 0⟩]
      [1 / 2, 1 / 2 + 1 / 2000000] =
      .ok ⟨[⟨Real.sqrt (1 / 2), 0⟩, ⟨Real.sqrt (1 / 2 + 1 / 2000000), 0⟩],
        [⟨"a1", 0, 0⟩, ⟨"a2", 1, 0⟩], []⟩ := by
    unfold superposition
    rw [if_neg (by simp), if_neg (by simp), if_neg ?_]
    · rfl
    · rw [hsum]
      rw [show (1 : ℝ) + 1 / 2000000 - 1 = 1 / 2000000 by ring]
      rw [abs_of_pos (by norm_num)]
      norm_num
  rw [hok]
  refine ⟨rfl, ?_⟩
  show 1 / 1000000000 <
    |normSqSum ⟨[⟨Real.sqrt (1 / 2), 0⟩, ⟨Real.sqrt (1 / 2 + 1 / 2000000), 0⟩],
      [⟨"a1", 0, 0⟩, ⟨"a2", 1, 0⟩], []⟩ - 1|
  unfold normSqSum
  simp only [List.map_cons, List.map_nil, List.sum_cons, List.sum_nil,
    Complex.normSq_mk]
  rw [Real.mul_self_sqrt (by norm_num), Real.mul_self_sqrt (by norm_num)]
  rw [show (1 : ℝ) / 2 + 0 * 0 + (1 / 2 + 1 / 2000000 + 0 * 0 + 0) - 1 =
    1 / 2000000 by ring]
  rw [abs_of_pos (by norm_num)]
  norm_num

/-- C9: `measure` collapses the state to exactly one basis state with
amplitude 1 (magnitude 1), and a second consecutive `measure` — under any
sampler that picks a valid index — returns the same position as the first. -/
theorem C9_measure_idempotent (sample1 sample2 : List ℝ → ℕ)
    (s : QuantumState)
    (h2 : ∀ l : List ℝ, l ≠ [] → sample2 l < l.length) :
    (measure sample1 s).1.amplitudes = [1] ∧
    (measure sample1 s).1.amplitudes.map Complex.abs = [1] ∧
    (measure sample1 s).1.basis_states = [(measure sample1 s).2] ∧
    (measure sample2 (measure sample1 s).1).2 = (measure sample1 s).2 := by
  have hamp : (measure sample1 s).1.amplitudes = [1] := rfl
  refine ⟨rfl, by rw [hamp]; simp, rfl, ?_⟩
  have h0 : sample2 [(1 : ℝ)] = 0 :=
    Nat.lt_one_iff.mp (by simpa using h2 [(1 : ℝ)] (by simp))
  show ((measure sample1 s).1.basis_states).getD
    (sample2 ((measure sample1 s).1.amplitudes.map Complex.normSq)) default =
    (measure sample1 s).2
  rw [show (measure sample1 s).1.amplitudes = [1] from rfl]
  rw [show (measure sample1 s).1.basis_states = [(measure sample1 s).2] from rfl]
  simp only [List.map_cons, List.map_nil, Complex.normSq_one, h0]
  simp [List.getD]

end QS

namespace QS

/-- C9 witness: a definite state measured twice with the always-first
sampler returns the same position both times. -/
theorem C9_measure_idempotent_witness :
    (measure (fun _ => 0) (QuantumState.new ⟨"e4", 3, 4⟩)).1.amplitudes = [1] ∧
    (measure (fun _ => 0)
      (QuantumState.new ⟨"e4", 3, 4⟩)).1.amplitudes.map Complex.abs = [1] ∧
    (measure (fun _ => 0) (QuantumState.new ⟨"e4", 3, 4⟩)).1.basis_states =
      [(measure (fun _ => 0) (QuantumState.new ⟨"e4", 3, 4⟩)).2] ∧
    (measure (fun _ => 0)
        (measure (fun _ => 0) (QuantumState.new ⟨"e4", 3, 4⟩)).1).2 =
      (measure (fun _ => 0) (QuantumState.new ⟨"e4", 3, 4⟩)).2 :=
  C9_measure_idempotent (fun _ => 0) (fun _ => 0) (QuantumState.new ⟨"e4", 3, 4⟩)
    (fun l hl => by simpa using List.length_pos.mpr hl)

theorem normalize_entanglements (s : QuantumState) :
    (normalize s).entanglements = s.entanglements := by
  simp only [normalize]
  split <;> rfl

theorem update_entangled_state_entanglements (o : QuantumState)
    (ty : EntanglementType) (m : ChessPosition) :
    (update_entangled_state o ty m).entanglements = o.entanglements := by
  cases ty with
  | Bell =>
      simp only [update_entangled_state]
      split <;> rfl
  | WState =>
      simp only [update_entangled_state]
      exact normalize_entanglements o
  | GHZ =>
      simp only [update_entangled_state]
      exact normalize_entanglements o
  | Custom c =>
      simp only [update_entangled_state]
      exact normalize_entanglements o

theorem measure_entanglements (sample : List ℝ → ℕ) (s : QuantumState) :
    (measure sample s).1.entanglements = s.entanglements :=
  rfl

theorem measure_with_entanglement_entanglements (sample : List ℝ → ℕ)
    (ghz : ℕ → Bool) (s : QuantumState)
    (states : List (ℕ × QuantumState)) :
    (measure_with_entanglement sample ghz s states).1.entanglements =
      s.entanglements := by
  unfold measure_with_entanglement
  split <;> rfl

theorem disentangle_entanglements (s : QuantumState) (k : ℕ) :
    (s.disentangle k).entanglements =
      s.entanglements.filter (fun e => decide (e.1 ≠ k)) :=
  rfl

theorem lookupA_disentangle_self (s : QuantumState) (k : ℕ) :
    lookupA k (s.disentangle k).entanglements = none :=
  lookupA_removeA_self k s.entanglements

theorem foldl_disentangle_eq_nil :
    ∀ (parts : List ℕ) (s : QuantumState),
      (∀ p ∈ s.entanglements, p.1 ∈ parts) →
      (parts.foldl (fun a q => a.disentangle q) s).entanglements = []
  | [], s, h => by
      cases hse : s.entanglements with
      | nil => exact hse
      | cons e t =>
          exact absurd (h e (by rw [hse]; exact List.mem_cons_self e t)) (by simp)
  | q :: rest, s, h => by
      simp only [List.foldl_cons]
      apply foldl_disentangle_eq_nil rest
      intro p hp
      rw [disentangle_entanglements] at hp
      have hp' := List.mem_filter.mp hp
      have hne : p.1 ≠ q := by simpa using hp'.2
      rcases List.mem_cons.mp (h p hp'.1) with h1 | h1
      · exact absurd h1 hne
      · exact h1

theorem lookupA_foldl_updateA_not_mem (F : ℕ → QuantumState → QuantumState)
    (G : List (ℕ × QuantumState) → ℕ → List (ℕ × QuantumState))
    (HG : ∀ a o, G a o = updateA o (F o) a) :
    ∀ (parts : List ℕ) (acc : List (ℕ × QuantumState)) (q : ℕ), q ∉ parts →
      lookupA q (parts.foldl G acc) = lookupA q acc
  | [], _, _, _ => rfl
  | o :: rest, acc, q, h => by
      simp only [List.foldl_cons]
      rw [lookupA_foldl_updateA_not_mem F G HG rest _ q
        (fun hc => h (List.mem_cons_of_mem o hc))]
      rw [HG]
      exact lookupA_updateA_ne q o (F o) acc
        (fun hc => h (hc ▸ List.mem_cons_self o rest))

theorem lookupA_foldl_updateA_isSome (F : ℕ → QuantumState → QuantumState)
    (G : List (ℕ × QuantumState) → ℕ → List (ℕ × QuantumState))
    (HG : ∀ a o, G a o = updateA o (F o) a) :
    ∀ (parts : List ℕ) (acc : List (ℕ × QuantumState)) (k : ℕ),
      (lookupA k acc).isSome →
      (lookupA k (parts.foldl G acc)).isSome
  | [], _, _, h => h
  | o :: rest, acc, k, h => by
      simp only [List.foldl_cons]
      apply lookupA_foldl_updateA_isSome F G HG rest
      rw [HG]
      by_cases ho : k = o
      · subst ho
        rw [lookupA_updateA_self]
        simpa using h
      · rw [lookupA_updateA_ne k o (F o) acc ho]
        exact h

theorem lookupA_foldl_updateA_mem (pid : ℕ) (F : ℕ → QuantumState → QuantumState)
    (G : List (ℕ × QuantumState) → ℕ → List (ℕ × QuantumState))
    (HG : ∀ a o, G a o = updateA o (F o) a)
    (HF : ∀ o x, lookupA pid (F o x).entanglements = none) :
    ∀ (parts : List ℕ) (acc : List (ℕ × QuantumState)) (q : ℕ), q ∈ parts →
      ∀ sq, lookupA q (parts.foldl G acc) = some sq →
      lookupA pid sq.entanglements = none
  | [], _, q, h, _, _ => absurd h (by simp)
  | o :: rest, acc, q, h, sq, hsq => by
      by_cases hq : q ∈ rest
      · exact lookupA_foldl_updateA_mem pid F G HG HF rest _ q hq sq hsq
      · have hqo : q = o := by
          rcases List.mem_cons.mp h with h1 | h1
          · exact h1
          · exact absurd h1 hq
        subst hqo
        rw [List.foldl_cons, lookupA_foldl_updateA_not_mem F G HG rest _ q hq,
          HG, lookupA_updateA_self] at hsq
        rcases hx : lookupA q acc with _ | x
        · rw [hx] at hsq
          simp at hsq
        · rw [hx] at hsq
          simp only [Option.map_some'] at hsq
          cases hsq
          exact HF q x

theorem lookupA_foldl_updateA_pid_subset (pid : ℕ)
    (F : ℕ → QuantumState → QuantumState)
    (G : List (ℕ × QuantumState) → ℕ → List (ℕ × QuantumState))
    (HG : ∀ a o, G a o = updateA o (F o) a)
    (E : List (ℕ × EntanglementType))
    (HF2 : ∀ o x, ∀ p ∈ (F o x).entanglements, p ∈ x.entanglements) :
    ∀ (parts : List ℕ) (acc : List (ℕ × QuantumState)),
      (∀ sq, lookupA pid acc = some sq → ∀ p ∈ sq.entanglements, p ∈ E) →
      ∀ sq, lookupA pid (parts.foldl G acc) = some sq →
      ∀ p ∈ sq.entanglements, p ∈ E
  | [], _, hacc, sq, hsq, p, hp => hacc sq hsq p hp
  | o :: rest, acc, hacc, sq, hsq, p, hp => by
      rw [List.foldl_cons] at hsq
      refine lookupA_foldl_updateA_pid_subset pid F G HG E HF2 rest
        (G acc o) ?_ sq hsq p hp
      rw [HG]
      intro sq2 hsq2 p2 hp2
      by_cases ho : o = pid
      · subst ho
        rw [lookupA_updateA_self] at hsq2
        rcases hx : lookupA o acc with _ | x
        · rw [hx] at hsq2
          simp at hsq2
        · rw [hx] at hsq2
          simp only [Option.map_some'] at hsq2
          cases hsq2
          exact hacc x hx p2 (HF2 o x p2 hp2)
      · rw [lookupA_updateA_ne pid o (F o) acc (fun hh => ho hh.symm)] at hsq2
        exact hacc sq2 hsq2 p2 hp2

end QS

namespace QS

/-- C8: `create_entanglement` records the link in both pieces' entanglement
maps (symmetry), and after `collapse_state` measures a piece, the measured
piece's entanglement map is empty and every pre-measurement partner's map no
longer references the measured piece — the link is removed on both sides. -/
theorem C8_entanglement_symmetry_and_removal :
    (∀ (states : List (ℕ × QuantumState)) (p1 p2 : ℕ)
        (ty : EntanglementType) (states' : List (ℕ × QuantumState)),
      create_entanglement p1 p2 ty states = .ok states' →
      (∃ s1, lookupA p1 states' = some s1 ∧
        lookupA p2 s1.entanglements = some ty) ∧
      (∃ s2, lookupA p2 states' = some s2 ∧
        lookupA p1 s2.entanglements = some ty)) ∧
    (∀ (sample : List ℝ → ℕ) (ghz : ℕ → Bool) (pid : ℕ)
        (states states' : List (ℕ × QuantumState)) (mp : ChessPosition)
        (st : QuantumState),
      lookupA pid states = some st →
      collapse_state sample ghz pid states = .ok (states', mp) →
      (∃ s', lookupA pid states' = some s' ∧ s'.entanglements = []) ∧
      (∀ q ∈ st.entanglements.map Prod.fst, ∀ sq,
        lookupA q states' = some sq → lookupA pid sq.entanglements = none)) := by
  constructor
  · intro states p1 p2 ty states' hok
    unfold create_entanglement at hok
    by_cases hcond : ((lookupA p1 states).isNone = true ∨
        (lookupA p2 states).isNone = true)
    · rw [if_pos hcond] at hok
      exact absurd hok (by simp)
    · rw [if_neg hcond] at hok
      push_neg at hcond
      simp only [Except.ok.injEq] at hok
      subst hok
      have h1 : ∃ x, lookupA p1 states = some x := by
        rcases hx : lookupA p1 states with _ | x
        · rw [hx] at hcond
          simp at hcond
        · exact ⟨x, rfl⟩
      have h2 : ∃ x, lookupA p2 states = some x := by
        rcases hx : lookupA p2 states with _ | x
        · rw [hx] at hcond
          simp at hcond
        · exact ⟨x, rfl⟩
      obtain ⟨x1, hx1⟩ := h1
      obtain ⟨x2, hx2⟩ := h2
      by_cases hpp : p1 = p2
      · subst hpp
        rw [lookupA_updateA_self, lookupA_updateA_self, hx1]
        refine ⟨⟨_, rfl, ?_⟩, ⟨_, rfl, ?_⟩⟩ <;>
          exact lookupA_setA_self p1 ty _
      · constructor
        · rw [lookupA_updateA_ne p1 p2 _ _ hpp, lookupA_updateA_self, hx1]
          exact ⟨_, rfl, lookupA_setA_self p2 ty _⟩
        · rw [lookupA_updateA_self,
            lookupA_updateA_ne p2 p1 _ _ (fun hh => hpp hh.symm), hx2]
          exact ⟨_, rfl, lookupA_setA_self p1 ty _⟩
  · intro sample ghz pid states states' mp st hst hok
    have hkey : collapse_state sample ghz pid states =
        (let entangled_pieces := st.entanglements.map Prod.fst
         if entangled_pieces.isEmpty then
           let r := measure sample st
           Except.ok (updateA pid (fun _ => r.1) states, r.2)
         else
           let r := measure_with_entanglement sample ghz st states
           let states1 := updateA pid (fun _ => r.1) states
           let states2 := entangled_pieces.foldl (fun acc other_piece_id =>
             updateA other_piece_id (fun other_state =>
               let updated :=
                 match lookupA other_piece_id r.1.entanglements with
                 | some entanglement_type =>
                     update_entangled_state other_state entanglement_type r.2
                 | none => other_state
               updated.disentangle pid) acc) states1
           let states3 := updateA pid
             (fun s => entangled_pieces.foldl (fun a q => a.disentangle q) s)
             states2
           Except.ok (states3, r.2)) := by
      unfold collapse_state
      rw [hst]
    rw [hkey] at hok
    rcases hc : st.entanglements.map Prod.fst with _ | ⟨q0, parts0⟩
    · -- no entangled partners: plain measurement
      rw [hc] at hok
      simp only [List.isEmpty_nil, if_true, Except.ok.injEq, Prod.mk.injEq] at hok
      obtain ⟨hs', _⟩ := hok
      subst hs'
      have hstnil : st.entanglements = [] := List.map_eq_nil_iff.mp hc
      constructor
      · rw [lookupA_updateA_self, hst]
        exact ⟨_, rfl, by rw [measure_entanglements, hstnil]⟩
      · intro q hq
        exact absurd hq (by simp)
    · -- entangled: measure with entanglement, then strip links on both sides
      rw [hc] at hok
      simp only [List.isEmpty_cons, Bool.false_eq_true, if_false,
        Except.ok.injEq, Prod.mk.injEq] at hok
      obtain ⟨hs', _⟩ := hok
      rw [← hc] at hs'
      subst hs'
      rw [← hc]
      set r := measure_with_entanglement sample ghz st states with hr
      set parts := st.entanglements.map Prod.fst with hparts
      set F : ℕ → QuantumState → QuantumState := fun other o =>
        (match lookupA other r.1.entanglements with
         | some entanglement_type => update_entangled_state o entanglement_type r.2
         | none => o).disentangle pid with hF
      have hFnone : ∀ o x, lookupA pid (F o x).entanglements = none := by
        intro o x
        exact lookupA_disentangle_self _ pid
      have hFsub : ∀ o x, ∀ p ∈ (F o x).entanglements, p ∈ x.entanglements := by
        intro o x p hp
        rw [hF] at hp
        simp only at hp
        rw [disentangle_entanglements] at hp
        have hp1 := (List.mem_filter.mp hp).1
        rcases hl : lookupA o r.1.entanglements with _ | ty2
        · rw [hl] at hp1
          exact hp1
        · rw [hl] at hp1
          rw [update_entangled_state_entanglements] at hp1
          exact hp1
      have hbase : ∀ sq, lookupA pid (updateA pid (fun _ => r.1) states) = some sq →
          ∀ p ∈ sq.entanglements, p ∈ st.entanglements := by
        intro sq hsq p hp
        rw [lookupA_updateA_self, hst] at hsq
        simp only [Option.map_some'] at hsq
        cases hsq
        rw [measure_with_entanglement_entanglements] at hp
        exact hp
      have hsome : (lookupA pid (parts.foldl
          (fun a o => updateA o (F o) a)
          (updateA pid (fun _ => r.1) states))).isSome := by
        apply lookupA_foldl_updateA_isSome F _ (fun a o => rfl)
        rw [lookupA_updateA_self, hst]
        simp
      obtain ⟨s0, hs0⟩ := Option.isSome_iff_exists.mp hsome
      have hs0sub : ∀ p ∈ s0.entanglements, p ∈ st.entanglements :=
        lookupA_foldl_updateA_pid_subset pid F _ (fun a o => rfl)
          st.entanglements hFsub parts
          (updateA pid (fun _ => r.1) states) hbase s0 hs0
      have hs0keys : ∀ p ∈ s0.entanglements, p.1 ∈ parts := by
        intro p hp
        rw [hparts]
        exact List.mem_map_of_mem Prod.fst (hs0sub p hp)
      constructor
      · show ∃ s', lookupA pid (updateA pid
            (fun s => parts.foldl (fun a q => a.disentangle q) s)
            (parts.foldl (fun a o => updateA o (F o) a)
              (updateA pid (fun _ => r.1) states))) = some s' ∧
          s'.entanglements = []
        rw [lookupA_updateA_self, hs0]
        exact ⟨_, rfl, foldl_disentangle_eq_nil parts s0 hs0keys⟩
      · show ∀ q ∈ parts, ∀ sq, lookupA q (updateA pid
            (fun s => parts.foldl (fun a q2 => a.disentangle q2) s)
            (parts.foldl (fun a o => updateA o (F o) a)
              (updateA pid (fun _ => r.1) states))) = some sq →
          lookupA pid sq.entanglements = none
        intro q hq sq hsq
        by_cases hqpid : q = pid
        · subst hqpid
          rw [lookupA_updateA_self, hs0] at hsq
          simp only [Option.map_some'] at hsq
          cases hsq
          rw [foldl_disentangle_eq_nil parts s0 hs0keys]
          rfl
        · rw [lookupA_updateA_ne q pid _ _ hqpid] at hsq
          exact lookupA_foldl_updateA_mem pid F _ (fun a o => rfl) hFnone
            parts _ q hq sq hsq

end QS

namespace QS

/-- C8 witness: Bell-entangling two concrete knights records the link in
both pieces' entanglement maps. -/
theorem C8_entanglement_symmetry_and_removal_witness :
    (∃ s1, lookupA 1 (okD []
        (create_entanglement 1 2 EntanglementType.Bell
          [(1, QuantumState.new ⟨"b1", 0, 1⟩),
           (2, QuantumState.new ⟨"b8", 7, 1⟩)])) = some s1 ∧
      lookupA 2 s1.entanglements = some EntanglementType.Bell) ∧
    (∃ s2, lookupA 2 (okD []
        (create_entanglement 1 2 EntanglementType.Bell
          [(1, QuantumState.new ⟨"b1", 0, 1⟩),
           (2, QuantumState.new ⟨"b8", 7, 1⟩)])) = some s2 ∧
      lookupA 1 s2.entanglements = some EntanglementType.Bell) :=
  C8_entanglement_symmetry_and_removal.1
    [(1, QuantumState.new ⟨"b1", 0, 1⟩), (2, QuantumState.new ⟨"b8", 7, 1⟩)]
    1 2 EntanglementType.Bell _ rfl

end QS
